import Mathlib

/-
  Verification development for the compudime-bom cost-calculation core.

  Shallow embedding of:
    api/services/unit_converter.py
    api/services/cost_calculator.py
    api/services/bom_service.py  (the aggregation part)

  Modelling decisions:
  - Python Decimal values are modelled by the rationals.  The source keeps
    all monetary and quantity arithmetic in Decimal; we use exact rational
    arithmetic for the same expressions.
  - Python exceptions are modelled by Except results; the exception class
    hierarchy becomes an inductive error type, with a dedicated constructor
    for the cycle error subclass.
  - SQLAlchemy object references between recipes (item.sub_recipe) are
    modelled by an environment mapping recipe ids to recipes; a missing
    entry models an unloaded or absent sub_recipe object.
  - The recursive walks over the recipe graph take a fuel parameter; the
    source recursion terminates through its visited sets, and the fuel
    independence of the embedding above an explicit bound is proved below.
-/

namespace BomSpec

/-- Decidable equality of results, for evaluating the embedding on
concrete inputs. -/
instance {ε α : Type _} [DecidableEq ε] [DecidableEq α] : DecidableEq (Except ε α) :=
  fun x y =>
    match x, y with
    | .ok a, .ok b =>
      if h : a = b then .isTrue (congrArg Except.ok h)
      else .isFalse (fun hh => h (Except.ok.inj hh))
    | .error a, .error b =>
      if h : a = b then .isTrue (congrArg Except.error h)
      else .isFalse (fun hh => h (Except.error.inj hh))
    | .ok _, .error _ => .isFalse (fun hh => Except.noConfusion hh)
    | .error _, .ok _ => .isFalse (fun hh => Except.noConfusion hh)

/-! ## Unit converter (api/services/unit_converter.py) -/

/-- Error cases of UnitConversionError, by raise site. -/
inductive UnitConversionError where
  | unknownUnit (unit : String)
  | missingDensity (from_unit to_unit from_category to_category : String)
  | incompatibleCategories (from_category to_category : String)
  deriving Repr, DecidableEq

/-- WEIGHT_UNITS set. -/
def WEIGHT_UNITS : List String := ["g", "kg", "oz", "lb", "mg"]

/-- VOLUME_UNITS set. -/
def VOLUME_UNITS : List String := ["ml", "l", "tsp", "tbsp", "cup", "fl_oz", "gal", "qt", "pt"]

/-- COUNT_UNITS set. -/
def COUNT_UNITS : List String := ["each", "piece", "dozen"]

/-- WEIGHT_TO_GRAMS table; lookups happen only after a category check, so
the fallback value is unreachable in the embedded code paths. -/
def WEIGHT_TO_GRAMS (u : String) : ℚ :=
  if u = "mg" then 0.001
  else if u = "g" then 1
  else if u = "kg" then 1000
  else if u = "oz" then 28.3495
  else if u = "lb" then 453.592
  else 0

/-- VOLUME_TO_ML table. -/
def VOLUME_TO_ML (u : String) : ℚ :=
  if u = "ml" then 1
  else if u = "l" then 1000
  else if u = "tsp" then 4.92892
  else if u = "tbsp" then 14.7868
  else if u = "fl_oz" then 29.5735
  else if u = "cup" then 236.588
  else if u = "pt" then 473.176
  else if u = "qt" then 946.353
  else if u = "gal" then 3785.41
  else 0

/-- COUNT_TO_EACH table. -/
def COUNT_TO_EACH (u : String) : ℚ :=
  if u = "each" then 1
  else if u = "piece" then 1
  else if u = "dozen" then 12
  else 0

/-- Python str.strip(): drop leading and trailing whitespace characters.
Implemented over the character list so that it evaluates by reduction. -/
def strip_chars (l : List Char) : List Char :=
  ((l.dropWhile Char.isWhitespace).reverse.dropWhile Char.isWhitespace).reverse

/-- Python unit.lower().strip(), as used throughout the converter:
lowercase every character, then drop leading and trailing whitespace. -/
def normalize_unit (u : String) : String :=
  ⟨strip_chars (u.data.map Char.toLower)⟩

/-- get_unit_category: classify a normalized unit name, or fail. -/
def get_unit_category (unit : String) : Except UnitConversionError String :=
  let unit := normalize_unit unit
  if WEIGHT_UNITS.contains unit then .ok "weight"
  else if VOLUME_UNITS.contains unit then .ok "volume"
  else if COUNT_UNITS.contains unit then .ok "count"
  else .error (.unknownUnit unit)

/-- convert(value, from_unit, to_unit, density).  The control flow mirrors
the source: same-unit shortcut first, then category lookups, then the
same-category branches, then the density-requiring cross-category code. -/
def convert (value : ℚ) (from_unit to_unit : String)
    (density : Option ℚ := none) : Except UnitConversionError ℚ :=
  let from_unit := normalize_unit from_unit
  let to_unit := normalize_unit to_unit
  if from_unit = to_unit then .ok value
  else
    match get_unit_category from_unit with
    | .error e => .error e
    | .ok from_category =>
      match get_unit_category to_unit with
      | .error e => .error e
      | .ok to_category =>
        if from_category = to_category ∧ from_category = "weight" then
          .ok (value * WEIGHT_TO_GRAMS from_unit / WEIGHT_TO_GRAMS to_unit)
        else if from_category = to_category ∧ from_category = "volume" then
          .ok (value * VOLUME_TO_ML from_unit / VOLUME_TO_ML to_unit)
        else if from_category = to_category ∧ from_category = "count" then
          .ok (value * COUNT_TO_EACH from_unit / COUNT_TO_EACH to_unit)
        else
          match density with
          | none => .error (.missingDensity from_unit to_unit from_category to_category)
          | some density =>
            if from_category = "weight" ∧ to_category = "volume" then
              .ok (value * WEIGHT_TO_GRAMS from_unit / density / VOLUME_TO_ML to_unit)
            else if from_category = "volume" ∧ to_category = "weight" then
              .ok (value * VOLUME_TO_ML from_unit * density / WEIGHT_TO_GRAMS to_unit)
            else
              .error (.incompatibleCategories from_category to_category)

/-- are_compatible(unit1, unit2, allow_density): the try block becomes a
match on the two category lookups; the set equality of the source is the
two-way disjunction on distinct category names. -/
def are_compatible (unit1 unit2 : String) (allow_density : Bool := false) : Bool :=
  match get_unit_category unit1, get_unit_category unit2 with
  | .ok cat1, .ok cat2 =>
    if cat1 = cat2 then true
    else if allow_density then
      decide ((cat1 = "weight" ∧ cat2 = "volume") ∨ (cat1 = "volume" ∧ cat2 = "weight"))
    else false
  | .error _, _ => false
  | _, .error _ => false

/-! ## Data model (database/models.py, the fields the cost engine reads) -/

/-- Ingredient record, restricted to the fields the cost engine reads. -/
structure Ingredient where
  id : ℕ
  name : String
  purchase_price : ℚ
  purchase_qty : ℚ
  conversion_factor : ℚ
  yield_percent : ℚ
  recipe_unit : String
  deriving Repr, DecidableEq

/-- Recipe item.  The ingredient reference is carried inline (modelling
ingredient_id and the loaded ingredient object both being present); the
sub-recipe reference stays an id resolved through the environment, which
models the loaded object graph and admits reference cycles. -/
structure RecipeItem where
  recipe_id : ℕ
  quantity : ℚ
  unit : String
  ingredient : Option Ingredient
  sub_recipe_id : Option ℕ
  deriving Repr, DecidableEq

/-- Recipe record, restricted to the fields the cost engine reads. -/
structure Recipe where
  id : ℕ
  name : String
  yield_qty : ℚ
  selling_price : Option ℚ
  items : List RecipeItem
  deriving Repr, DecidableEq

/-- The loaded object graph: recipe id to recipe.  A none entry models a
sub_recipe_id whose sub_recipe object is absent. -/
def RecipeEnv : Type := ℕ → Option Recipe

/-- The environment is consistent when every stored recipe carries the id
it is stored under (the foreign-key integrity of the database). -/
def EnvConsistent (env : RecipeEnv) : Prop :=
  ∀ i r, env i = some r → r.id = i

/-! ## Cost calculator (api/services/cost_calculator.py) -/

/-- Error cases of CostCalculationError, by raise site; the cycle
constructor stands for the RecipeCycleError subclass, and fuelExhausted is
the out-of-fuel marker of the embedding (never reached with enough fuel). -/
inductive CostCalculationError where
  | zeroPurchaseQty (name : String)
  | zeroConversionFactor (name : String)
  | zeroYieldPercent (name : String)
  | cannotConvert (target_unit recipe_unit name : String) (e : UnitConversionError)
  | cycle (recipe_id : ℕ)
  | zeroSubYield (name : String)
  | zeroRecipeYield (name : String)
  | noReference
  | fuelExhausted
  deriving Repr, DecidableEq

/-- get_ingredient_unit_cost(ingredient, target_unit). -/
def get_ingredient_unit_cost (ingredient : Ingredient)
    (target_unit : Option String := none) : Except CostCalculationError ℚ :=
  let target_unit := target_unit.getD ingredient.recipe_unit
  if ingredient.purchase_qty = 0 then
    .error (.zeroPurchaseQty ingredient.name)
  else
    let base_cost_per_purchase_unit := ingredient.purchase_price / ingredient.purchase_qty
    if ingredient.conversion_factor = 0 then
      .error (.zeroConversionFactor ingredient.name)
    else
      let cost_per_recipe_unit := base_cost_per_purchase_unit / ingredient.conversion_factor
      if ingredient.yield_percent = 0 then
        .error (.zeroYieldPercent ingredient.name)
      else
        let cost_with_yield := cost_per_recipe_unit / (ingredient.yield_percent / 100)
        let recipe_unit := normalize_unit ingredient.recipe_unit
        let target_unit := normalize_unit target_unit
        if recipe_unit = target_unit then
          .ok cost_with_yield
        else
          match convert 1 target_unit recipe_unit with
          | .ok recipe_units_per_target => .ok (cost_with_yield * recipe_units_per_target)
          | .error e => .error (.cannotConvert target_unit recipe_unit ingredient.name e)

mutual

/-- calculate_recipe_item_cost(item, scale, visited). -/
def calculate_recipe_item_cost (env : RecipeEnv) :
    ℕ → RecipeItem → ℚ → Finset ℕ → Except CostCalculationError ℚ
  | 0, _, _, _ => .error .fuelExhausted
  | fuel + 1, item, scale, visited =>
    let quantity := item.quantity * scale
    match item.ingredient with
    | some ingredient =>
      match get_ingredient_unit_cost ingredient (some item.unit) with
      | .ok unit_cost => .ok (quantity * unit_cost)
      | .error e => .error e
    | none =>
      match item.sub_recipe_id with
      | some sub_recipe_id =>
        match env sub_recipe_id with
        | some sub_recipe =>
          if sub_recipe_id ∈ visited then
            .error (.cycle sub_recipe_id)
          else if sub_recipe.yield_qty = 0 then
            .error (.zeroSubYield sub_recipe.name)
          else
            match calculate_recipe_cost env fuel sub_recipe 1 (visited ∪ {item.recipe_id}) with
            | .ok batch_cost => .ok (batch_cost * (quantity / sub_recipe.yield_qty))
            | .error e => .error e
        | none => .error .noReference
      | none => .error .noReference
termination_by fuel _ _ _ => (fuel, 0)

/-- The total_cost accumulation loop of calculate_recipe_cost; the first
failing item aborts the whole sum, as the raised exception does. -/
def sum_item_costs (env : RecipeEnv) :
    ℕ → List RecipeItem → ℚ → Finset ℕ → ℚ → Except CostCalculationError ℚ
  | _, [], _, _, total_cost => .ok total_cost
  | fuel, item :: rest, scale, visited, total_cost =>
    match calculate_recipe_item_cost env fuel item scale visited with
    | .ok item_cost => sum_item_costs env fuel rest scale visited (total_cost + item_cost)
    | .error e => .error e
termination_by fuel items _ _ _ => (fuel, 1 + items.length)

/-- calculate_recipe_cost(recipe, scale, visited). -/
def calculate_recipe_cost (env : RecipeEnv) :
    ℕ → Recipe → ℚ → Finset ℕ → Except CostCalculationError ℚ
  | 0, _, _, _ => .error .fuelExhausted
  | fuel + 1, recipe, scale, visited =>
    if recipe.id ∈ visited then
      .error (.cycle recipe.id)
    else
      sum_item_costs env fuel recipe.items scale (visited ∪ {recipe.id}) 0
termination_by fuel _ _ _ => (fuel, 1)

end

/-- calculate_cost_per_portion(recipe, scale). -/
def calculate_cost_per_portion (env : RecipeEnv) (fuel : ℕ) (recipe : Recipe)
    (scale : ℚ := 1) : Except CostCalculationError ℚ :=
  match calculate_recipe_cost env fuel recipe scale ∅ with
  | .error e => .error e
  | .ok total_cost =>
    let yield_qty := recipe.yield_qty * scale
    if yield_qty = 0 then .error (.zeroRecipeYield recipe.name)
    else .ok (total_cost / yield_qty)

/-- The price the source computes with the or-chain
selling_price or (recipe.selling_price if recipe.selling_price else None):
a zero or absent override falls back to the stored price, and a zero or
absent stored price yields no price at all. -/
def effective_selling_price (recipe : Recipe) (selling_price : Option ℚ) : Option ℚ :=
  let fallback : Option ℚ :=
    match recipe.selling_price with
    | some stored => if stored = 0 then none else some stored
    | none => none
  match selling_price with
  | some sp => if sp = 0 then fallback else some sp
  | none => fallback

/-- calculate_food_cost_percentage(recipe, selling_price). -/
def calculate_food_cost_percentage (env : RecipeEnv) (fuel : ℕ) (recipe : Recipe)
    (selling_price : Option ℚ := none) : Except CostCalculationError (Option ℚ) :=
  match effective_selling_price recipe selling_price with
  | none => .ok none
  | some price =>
    if price = 0 then .ok none
    else
      match calculate_cost_per_portion env fuel recipe with
      | .ok cost_per_portion => .ok (some (cost_per_portion / price * 100))
      | .error e => .error e

/-! ## BOM aggregation (api/services/bom_service.py) -/

/-- One aggregation record of the defaultdict in _aggregate_ingredients. -/
structure AggData where
  total_qty : ℚ
  unit : Option String
  unit_cost : Option ℚ
  ingredient_name : Option String
  sources : List (String × ℚ)
  deriving Repr, DecidableEq

/-- The default-factory record of the defaultdict. -/
def AggData.initial : AggData :=
  { total_qty := 0, unit := none, unit_cost := none, ingredient_name := none, sources := [] }

/-- The aggregation dict, as an insertion-ordered association list. -/
def Agg : Type := List (ℕ × AggData)

/-- Reading aggregated[key]: the stored record, or the default-factory
record when the key has not been touched yet. -/
def aggGet (agg : Agg) (key : ℕ) : AggData :=
  (List.lookup key agg).getD AggData.initial

/-- Writing aggregated[key] back: update in place, or append on first
touch, matching the insertion order of the Python dict. -/
def aggSet (agg : Agg) (key : ℕ) (record : AggData) : Agg :=
  match agg with
  | [] => [(key, record)]
  | (k, d) :: rest => if k = key then (k, record) :: rest else (k, d) :: aggSet rest key record

/-- The direct-ingredient branch of the loop body of _flatten_recipe_items:
add the scaled quantity, overwrite the unit and name, compute the unit cost
only while it is still missing, and append the source record. -/
def process_ingredient_item (item : RecipeItem) (ing : Ingredient) (scale : ℚ)
    (agg : Agg) (source_recipe : String) : Agg :=
  let qty := item.quantity * scale
  let a := aggGet agg ing.id
  let a := { a with
    total_qty := a.total_qty + qty
    unit := some item.unit
    ingredient_name := some ing.name }
  let a :=
    if a.unit_cost = none then
      { a with unit_cost := (get_ingredient_unit_cost ing (some item.unit)).toOption }
    else a
  let a := { a with sources := a.sources ++ [(source_recipe, qty)] }
  aggSet agg ing.id a

mutual

/-- _flatten_recipe_items(recipe, scale, aggregated, source_recipe,
visited).  A revisited recipe id returns the accumulator unchanged; the
mutable set of the source, mutated only by the single add of the current
id and then copied into each child call, is the value visited ∪ {id}
every child receives. -/
def flatten_recipe_items (env : RecipeEnv) :
    ℕ → Recipe → ℚ → Agg → String → Finset ℕ → Agg
  | 0, _, _, aggregated, _, _ => aggregated
  | fuel + 1, recipe, scale, aggregated, source_recipe, visited =>
    if recipe.id ∈ visited then aggregated
    else flatten_items env fuel recipe.items scale aggregated source_recipe (visited ∪ {recipe.id})
termination_by fuel _ _ _ _ _ => (fuel, 0)

/-- The item loop of _flatten_recipe_items.  An item with neither a loaded
ingredient nor a loaded sub-recipe is skipped silently (the loop has no
else branch). -/
def flatten_items (env : RecipeEnv) :
    ℕ → List RecipeItem → ℚ → Agg → String → Finset ℕ → Agg
  | _, [], _, aggregated, _, _ => aggregated
  | fuel, item :: rest, scale, aggregated, source_recipe, visited =>
    let aggregated :=
      match item.ingredient with
      | some ing => process_ingredient_item item ing scale aggregated source_recipe
      | none =>
        match item.sub_recipe_id with
        | some sub_recipe_id =>
          match env sub_recipe_id with
          | some sub_recipe =>
            flatten_recipe_items env fuel sub_recipe
              ((item.quantity / sub_recipe.yield_qty) * scale)
              aggregated source_recipe visited
          | none => aggregated
        | none => aggregated
    flatten_items env fuel rest scale aggregated source_recipe visited
termination_by fuel items _ _ _ _ => (fuel, 1 + items.length)

end

/-- One BOM recipe request: recipe id and requested portions. -/
structure BOMRecipeRequest where
  recipe_id : ℕ
  portions : ℚ
  deriving Repr, DecidableEq

/-- _aggregate_ingredients over the validated requests.  generate has
already checked every requested id resolves, so the none branch is
unreachable on the inputs the source ever passes in. -/
def aggregate_ingredients (env : RecipeEnv) (fuel : ℕ)
    (requests : List BOMRecipeRequest) : Agg :=
  requests.foldl
    (fun aggregated req =>
      match env req.recipe_id with
      | some recipe =>
        flatten_recipe_items env fuel recipe (req.portions / recipe.yield_qty)
          aggregated recipe.name ∅
      | none => aggregated)
    []

/-! ## Specification-side definitions

The next definitions follow the wording of the specification, not the
source; they exist to be compared with the embedded code above. -/

mutual

/-- Follows the specification wording for BOM totals: the total quantity
of the ingredient with id ing_id contributed by expanding recipe at the
given scale, as the sum over all expansions of item.quantity times the
effective scale, the effective scale of a sub-recipe item being
(item.quantity / sub_recipe.yield_qty) times the parent scale. -/
def spec_expanded_qty (env : RecipeEnv) : ℕ → Recipe → ℚ → ℕ → ℚ
  | 0, _, _, _ => 0
  | fuel + 1, recipe, scale, ing_id =>
    (recipe.items.map (fun item => spec_item_qty env fuel item scale ing_id)).sum
termination_by fuel _ _ _ => (fuel, 0)

/-- The contribution of one item in the specification sum. -/
def spec_item_qty (env : RecipeEnv) : ℕ → RecipeItem → ℚ → ℕ → ℚ
  | fuel, item, scale, ing_id =>
    match item.ingredient with
    | some ing => if ing.id = ing_id then item.quantity * scale else 0
    | none =>
      match item.sub_recipe_id with
      | some sub_recipe_id =>
        match env sub_recipe_id with
        | some sub_recipe =>
          spec_expanded_qty env fuel sub_recipe
            ((item.quantity / sub_recipe.yield_qty) * scale) ing_id
        | none => 0
      | none => 0
termination_by fuel _ _ _ => (fuel, 1)

end

/-- Follows the specification wording for BOM totals across requests: the
sum of the per-recipe expanded quantities, each top-level recipe scaled by
requested portions over its yield quantity. -/
def spec_bom_total (env : RecipeEnv) (fuel : ℕ)
    (requests : List BOMRecipeRequest) (ing_id : ℕ) : ℚ :=
  (requests.map (fun req =>
    match env req.recipe_id with
    | some recipe => spec_expanded_qty env fuel recipe (req.portions / recipe.yield_qty) ing_id
    | none => 0)).sum

mutual

/-- The flattening walk from recipe never meets an already visited recipe
id: the acyclicity condition under which the visited-set truncation of
_flatten_recipe_items never fires. -/
def no_revisit (env : RecipeEnv) : ℕ → Recipe → Finset ℕ → Bool
  | 0, _, _ => true
  | fuel + 1, recipe, visited =>
    recipe.id ∉ visited && no_revisit_items env fuel recipe.items (visited ∪ {recipe.id})
termination_by fuel _ _ => (fuel, 0)

/-- Item-list companion of no_revisit. -/
def no_revisit_items (env : RecipeEnv) : ℕ → List RecipeItem → Finset ℕ → Bool
  | _, [], _ => true
  | fuel, item :: rest, visited =>
    (match item.ingredient with
     | some _ => true
     | none =>
       match item.sub_recipe_id with
       | some sub_recipe_id =>
         match env sub_recipe_id with
         | some sub_recipe => no_revisit env fuel sub_recipe visited
         | none => true
       | none => true) && no_revisit_items env fuel rest visited
termination_by fuel items _ => (fuel, 1 + items.length)

end

/-- One sub-recipe reference hop: recipe holds an item whose loaded
sub-recipe is sub (the expansion step of the cost calculator). -/
def SubStep (env : RecipeEnv) (recipe sub : Recipe) : Prop :=
  ∃ item ∈ recipe.items, item.ingredient = none ∧
    ∃ sub_recipe_id, item.sub_recipe_id = some sub_recipe_id ∧ env sub_recipe_id = some sub

/-- Reachability through one or more sub-recipe reference hops. -/
inductive ReachesSub (env : RecipeEnv) : Recipe → Recipe → Prop where
  | base {r s : Recipe} : SubStep env r s → ReachesSub env r s
  | step {r s t : Recipe} : SubStep env r s → ReachesSub env s t → ReachesSub env r t

/-! ## Concrete example data used by witnesses and counterexamples -/

/-- Flour: 10.00 for a 5 lb bag, 16 oz per lb, full yield. -/
def exFlour : Ingredient :=
  { id := 10, name := "flour", purchase_price := 10, purchase_qty := 5,
    conversion_factor := 16, yield_percent := 100, recipe_unit := "oz" }

/-- An ingredient costing exactly 1 per gram. -/
def exIngA : Ingredient :=
  { id := 20, name := "a", purchase_price := 1, purchase_qty := 1,
    conversion_factor := 1, yield_percent := 100, recipe_unit := "g" }

/-- A sub-recipe reference item. -/
def exSubItem (owner sub : ℕ) : RecipeItem :=
  { recipe_id := owner, quantity := 1, unit := "portion",
    ingredient := none, sub_recipe_id := some sub }

/-- One-ingredient recipe costing 1 per batch at yield 1, priced at 4. -/
def exRecipePriced : Recipe :=
  { id := 1, name := "priced", yield_qty := 1, selling_price := some 4,
    items := [{ recipe_id := 1, quantity := 1, unit := "g",
                ingredient := some exIngA, sub_recipe_id := none }] }

/-- Recipes 2 -> 3 -> 4 -> 2: a transitive sub-recipe cycle. -/
def exCycleR2 : Recipe :=
  { id := 2, name := "c2", yield_qty := 1, selling_price := none, items := [exSubItem 2 3] }

/-- Second recipe of the transitive cycle. -/
def exCycleR3 : Recipe :=
  { id := 3, name := "c3", yield_qty := 1, selling_price := none, items := [exSubItem 3 4] }

/-- Third recipe of the transitive cycle. -/
def exCycleR4 : Recipe :=
  { id := 4, name := "c4", yield_qty := 1, selling_price := none, items := [exSubItem 4 2] }

/-- Recipe yielding 4 portions and using 2 cups of flour. -/
def exRecipeScaled : Recipe :=
  { id := 5, name := "scaled", yield_qty := 4, selling_price := none,
    items := [{ recipe_id := 5, quantity := 2, unit := "cup",
                ingredient := some exFlour, sub_recipe_id := none }] }

/-- Recipe using the same ingredient twice under two different units. -/
def exRecipeTwoUnits : Recipe :=
  { id := 6, name := "twounits", yield_qty := 1, selling_price := none,
    items := [{ recipe_id := 6, quantity := 1, unit := "cup",
                ingredient := some exIngA, sub_recipe_id := none },
              { recipe_id := 6, quantity := 2, unit := "tbsp",
                ingredient := some exIngA, sub_recipe_id := none }] }

/-- Recipe with an ingredient and a sub-recipe link into exRecipeCycB. -/
def exRecipeCycA : Recipe :=
  { id := 7, name := "cycA", yield_qty := 1, selling_price := none,
    items := [{ recipe_id := 7, quantity := 3, unit := "g",
                ingredient := some exIngA, sub_recipe_id := none },
              exSubItem 7 8] }

/-- Recipe with an ingredient and a sub-recipe link back into exRecipeCycA. -/
def exRecipeCycB : Recipe :=
  { id := 8, name := "cycB", yield_qty := 1, selling_price := none,
    items := [{ recipe_id := 8, quantity := 5, unit := "g",
                ingredient := some exFlour, sub_recipe_id := none },
              exSubItem 8 7] }

/-- Recipe A of the merge example: yield 4, 2 cups of flour. -/
def exRecipeMergeA : Recipe :=
  { id := 9, name := "mergeA", yield_qty := 4, selling_price := none,
    items := [{ recipe_id := 9, quantity := 2, unit := "cup",
                ingredient := some exFlour, sub_recipe_id := none }] }

/-- Recipe B of the merge example: yield 4, 1 cup of flour. -/
def exRecipeMergeB : Recipe :=
  { id := 11, name := "mergeB", yield_qty := 4, selling_price := none,
    items := [{ recipe_id := 11, quantity := 1, unit := "cup",
                ingredient := some exFlour, sub_recipe_id := none }] }

/-- The domain of the example environment. -/
def exDom : Finset ℕ := {1, 2, 3, 4, 5, 6, 7, 8, 9, 11}

/-- One environment holding every example recipe at its id. -/
def exEnv : RecipeEnv := fun n =>
  if n = 1 then some exRecipePriced
  else if n = 2 then some exCycleR2
  else if n = 3 then some exCycleR3
  else if n = 4 then some exCycleR4
  else if n = 5 then some exRecipeScaled
  else if n = 6 then some exRecipeTwoUnits
  else if n = 7 then some exRecipeCycA
  else if n = 8 then some exRecipeCycB
  else if n = 9 then some exRecipeMergeA
  else if n = 11 then some exRecipeMergeB
  else none

/-! ## General lemmas about normalization -/

/-- Char.toLower is idempotent: a lowered character is no longer in the
uppercase latin range. -/
theorem char_toNat_ofNat_valid (n : Nat) (h : n.isValidChar) : (Char.ofNat n).toNat = n := by
  unfold Char.ofNat
  rw [dif_pos h]
  unfold Char.toNat Char.ofNatAux
  exact BitVec.toNat_ofNatLt n _

/-- Char.toLower is idempotent. -/
theorem toLower_idem (c : Char) : c.toLower.toLower = c.toLower := by
  unfold Char.toLower
  by_cases h : c.toNat ≥ 65 ∧ c.toNat ≤ 90
  · rw [if_pos h]
    have hv : (c.toNat + 32).isValidChar := by
      unfold Nat.isValidChar
      omega
    rw [char_toNat_ofNat_valid _ hv]
    have hnot : ¬(c.toNat + 32 ≥ 65 ∧ c.toNat + 32 ≤ 90) := by omega
    rw [if_neg hnot]
  · rw [if_neg h, if_neg h]

/-- strip_chars through the Mathlib right-drop combinator. -/
theorem strip_chars_eq (l : List Char) :
    strip_chars l =
      List.rdropWhile Char.isWhitespace (List.dropWhile Char.isWhitespace l) := by
  simp [strip_chars, List.rdropWhile]

/-- Stripping leaves no leading whitespace. -/
theorem dropWhile_strip_chars (l : List Char) :
    List.dropWhile Char.isWhitespace (strip_chars l) = strip_chars l := by
  rw [strip_chars_eq]
  rcases hc : List.rdropWhile Char.isWhitespace (List.dropWhile Char.isWhitespace l)
    with _ | ⟨c, cs⟩
  · simp
  · obtain ⟨t, ht⟩ := List.rdropWhile_prefix Char.isWhitespace
      (List.dropWhile Char.isWhitespace l)
    rw [hc] at ht
    have hAi : List.dropWhile Char.isWhitespace
        (List.dropWhile Char.isWhitespace l) = List.dropWhile Char.isWhitespace l := by
      rw [List.dropWhile_idempotent]
    rw [← ht] at hAi
    by_cases hwc : Char.isWhitespace c
    · rw [List.cons_append, List.dropWhile_cons, if_pos hwc] at hAi
      have hle := (List.dropWhile_sublist (l := cs ++ t)
        (p := Char.isWhitespace)).length_le
      rw [hAi] at hle
      simp at hle
    · rw [List.dropWhile_cons, if_neg hwc]

/-- Stripping is idempotent. -/
theorem strip_chars_idem (l : List Char) :
    strip_chars (strip_chars l) = strip_chars l := by
  rw [strip_chars_eq (strip_chars l), dropWhile_strip_chars, strip_chars_eq]
  exact List.rdropWhile_idempotent Char.isWhitespace _

/-- Stripping only keeps characters of the input. -/
theorem strip_chars_subset (l : List Char) : ∀ c ∈ strip_chars l, c ∈ l := by
  intro c hc
  rw [strip_chars_eq] at hc
  have h1 : c ∈ List.dropWhile Char.isWhitespace l :=
    (List.rdropWhile_prefix Char.isWhitespace _).subset hc
  exact (List.dropWhile_sublist _).subset h1

/-- Unit normalization is idempotent, hence the source may normalize a
name twice (in convert and again in get_unit_category) with no effect. -/
theorem normalize_unit_idem (u : String) :
    normalize_unit (normalize_unit u) = normalize_unit u := by
  unfold normalize_unit
  have hmap : (String.mk (strip_chars (u.data.map Char.toLower))).data.map Char.toLower
      = strip_chars (u.data.map Char.toLower) := by
    have hmem : ∀ c ∈ strip_chars (u.data.map Char.toLower), c.toLower = c := by
      intro c hc
      rcases List.mem_map.mp (strip_chars_subset _ c hc) with ⟨x, _, rfl⟩
      exact toLower_idem x
    calc (String.mk (strip_chars (u.data.map Char.toLower))).data.map Char.toLower
        = (strip_chars (u.data.map Char.toLower)).map id := List.map_congr_left hmem
      _ = strip_chars (u.data.map Char.toLower) := List.map_id _
  rw [hmap, strip_chars_idem]

/-! ## Unit converter lemmas -/

/-- Category lookup ignores an extra normalization pass. -/
theorem get_unit_category_normalize (u : String) :
    get_unit_category (normalize_unit u) = get_unit_category u := by
  unfold get_unit_category
  rw [normalize_unit_idem]

/-- Category lookup yields one of the three category names or the
unknown-unit error naming the normalized input. -/
theorem get_unit_category_cases (u : String) :
    get_unit_category u = .ok "weight" ∨ get_unit_category u = .ok "volume" ∨
      get_unit_category u = .ok "count" ∨
      get_unit_category u = .error (.unknownUnit (normalize_unit u)) := by
  unfold get_unit_category
  by_cases h1 : normalize_unit u ∈ WEIGHT_UNITS
  · simp [h1]
  · by_cases h2 : normalize_unit u ∈ VOLUME_UNITS
    · simp [h1, h2]
    · by_cases h3 : normalize_unit u ∈ COUNT_UNITS
      · simp [h1, h2, h3]
      · simp [h1, h2, h3]

/-- A name outside all three unit tables fails category lookup. -/
theorem get_unit_category_unknown (u : String)
    (h1 : normalize_unit u ∉ WEIGHT_UNITS) (h2 : normalize_unit u ∉ VOLUME_UNITS)
    (h3 : normalize_unit u ∉ COUNT_UNITS) :
    get_unit_category u = .error (.unknownUnit (normalize_unit u)) := by
  unfold get_unit_category
  simp [h1, h2, h3]

/-- Passing already normalized names to convert changes nothing. -/
theorem convert_normalize_args (value : ℚ) (u1 u2 : String) (density : Option ℚ) :
    convert value (normalize_unit u1) (normalize_unit u2) density =
      convert value u1 u2 density := by
  unfold convert
  simp only []
  rw [normalize_unit_idem, normalize_unit_idem]

/-- Claim C10: for every value and every pair of unit strings that
normalize (lowercase, whitespace-trimmed) to the same string, including
strings that are in no supported-unit table, convert returns the value
unchanged and raises no error: the same-unit shortcut runs before the
unknown-unit validation. -/
theorem c10_same_unit_shortcut (value : ℚ) (u1 u2 : String) (density : Option ℚ)
    (h : normalize_unit u1 = normalize_unit u2) :
    convert value u1 u2 density = .ok value := by
  unfold convert
  simp only [h, if_pos]

/-- Witness for C10 at an unrecognized unit name written in two spellings. -/
theorem c10_same_unit_shortcut_witness :
    convert 5 "xyz" " XYZ " none = .ok 5 :=
  c10_same_unit_shortcut 5 "xyz" " XYZ " none (by decide)

/-- Claim C8 counterexample: the unit name xyz is in no supported table,
yet converting it to itself succeeds, because the same-unit shortcut runs
first; the claim as stated demands an unknown-unit error here. -/
theorem c8_counterexample :
    normalize_unit "xyz" ∉ WEIGHT_UNITS ∧ normalize_unit "xyz" ∉ VOLUME_UNITS ∧
      normalize_unit "xyz" ∉ COUNT_UNITS ∧
      convert 5 "xyz" "xyz" none = .ok 5 := by
  refine ⟨by decide, by decide, by decide, by with_unfolding_all decide⟩

/-- Claim C8 as amended: if either name, after normalization, is in none
of the supported weight, volume, or count unit tables, and the two names
do not normalize to the same string, then convert fails with an
unknown-unit error. -/
theorem c8_unknown_unit_error (value : ℚ) (u1 u2 : String) (density : Option ℚ)
    (hne : normalize_unit u1 ≠ normalize_unit u2)
    (hunk :
      (normalize_unit u1 ∉ WEIGHT_UNITS ∧ normalize_unit u1 ∉ VOLUME_UNITS ∧
        normalize_unit u1 ∉ COUNT_UNITS) ∨
      (normalize_unit u2 ∉ WEIGHT_UNITS ∧ normalize_unit u2 ∉ VOLUME_UNITS ∧
        normalize_unit u2 ∉ COUNT_UNITS)) :
    ∃ u, convert value u1 u2 density = .error (.unknownUnit u) := by
  unfold convert
  simp only []
  rw [if_neg hne, get_unit_category_normalize u1, get_unit_category_normalize u2]
  rcases hunk with ⟨h1, h2, h3⟩ | ⟨h1, h2, h3⟩
  · rw [get_unit_category_unknown u1 h1 h2 h3]
    exact ⟨normalize_unit u1, rfl⟩
  · rw [get_unit_category_unknown u2 h1 h2 h3]
    rcases get_unit_category_cases u1 with hc | hc | hc | hc <;> rw [hc] <;>
      exact ⟨_, rfl⟩

/-- Witness for C8 as amended: grams to an unknown name fails. -/
theorem c8_unknown_unit_error_witness :
    ∃ u, convert 1 "g" "xyz" none = .error (.unknownUnit u) :=
  c8_unknown_unit_error 1 "g" "xyz" none (by decide)
    (Or.inr ⟨by decide, by decide, by decide⟩)

/-- Claim C9 counterexample: converting the unknown name xyz to itself
succeeds through the same-unit shortcut, yet are_compatible reports the
pair incompatible, so the predicate disagrees with the conversion
outcome that the claim asserts it always matches. -/
theorem c9_counterexample :
    are_compatible "xyz" "xyz" false = false ∧
      are_compatible "xyz" "xyz" true = false ∧
      convert 5 "xyz" "xyz" none = .ok 5 := by
  refine ⟨by decide, by decide, by with_unfolding_all decide⟩

/-- Claim C9 as amended: for unit pairs that do not normalize to the same
string, are_compatible answers true exactly when convert succeeds, with a
nonzero density supplied exactly when allow_density is true; the
agreement fails only on pairs normalizing to the same string, where
convert always succeeds but are_compatible still requires known units. -/
theorem c9_are_compatible (value : ℚ) (u1 u2 : String) (allow_density : Bool) (d : ℚ)
    (hd : d ≠ 0) (hne : normalize_unit u1 ≠ normalize_unit u2) :
    are_compatible u1 u2 allow_density = true ↔
      ∃ c, convert value u1 u2 (if allow_density then some d else none) = .ok c := by
  unfold convert are_compatible
  simp only []
  rw [get_unit_category_normalize u1, get_unit_category_normalize u2]
  rcases get_unit_category_cases u1 with h1 | h1 | h1 | h1 <;>
    rcases get_unit_category_cases u2 with h2 | h2 | h2 | h2 <;>
      cases allow_density <;>
        simp [h1, h2, hne]

/-- Witness for C9 as amended, on a weight pair without density. -/
theorem c9_are_compatible_witness :
    (are_compatible "kg" "lb" false = true ↔
      ∃ c, convert 2 "kg" "lb" (if false then some 1 else none) = .ok c) :=
  c9_are_compatible 2 "kg" "lb" false 1 (by norm_num) (by decide)

set_option maxRecDepth 40000

/-! ## Ingredient unit cost (C1) -/

/-- Claim C1: for every ingredient whose purchase_qty and
conversion_factor are positive and whose yield_percent lies in (0,100],
get_ingredient_unit_cost with the default target unit returns exactly
purchase_price / purchase_qty / conversion_factor / (yield_percent/100);
in particular the 10.00 for 5 at factor 16 examples give exactly 0.125 at
full yield and 0.15625 at 80 percent yield; and when the target unit
differs from the recipe unit, the result is that value multiplied by the
number of recipe units in one target unit as computed by the converter.
The function is a pure function of its arguments, hence deterministic. -/
theorem c1_ingredient_unit_cost :
    (∀ ing : Ingredient, 0 < ing.purchase_qty → 0 < ing.conversion_factor →
      0 < ing.yield_percent → ing.yield_percent ≤ 100 →
      get_ingredient_unit_cost ing none =
        .ok (ing.purchase_price / ing.purchase_qty / ing.conversion_factor /
          (ing.yield_percent / 100))) ∧
    (∀ (ing : Ingredient) (target : String) (r : ℚ),
      0 < ing.purchase_qty → 0 < ing.conversion_factor →
      0 < ing.yield_percent → ing.yield_percent ≤ 100 →
      normalize_unit ing.recipe_unit ≠ normalize_unit target →
      convert 1 target ing.recipe_unit none = .ok r →
      get_ingredient_unit_cost ing (some target) =
        .ok (ing.purchase_price / ing.purchase_qty / ing.conversion_factor /
          (ing.yield_percent / 100) * r)) ∧
    get_ingredient_unit_cost exFlour none = .ok 0.125 ∧
    get_ingredient_unit_cost { exFlour with yield_percent := 80 } none = .ok 0.15625 := by
  refine ⟨?_, ?_, by with_unfolding_all decide, by with_unfolding_all decide⟩
  · intro ing hq hcf hy _
    unfold get_ingredient_unit_cost
    simp only [Option.getD_none]
    rw [if_neg hq.ne', if_neg hcf.ne', if_neg hy.ne']
    simp
  · intro ing target r hq hcf hy _ hne hconv
    unfold get_ingredient_unit_cost
    simp only [Option.getD_some]
    rw [if_neg hq.ne', if_neg hcf.ne', if_neg hy.ne', if_neg hne]
    rw [← convert_normalize_args] at hconv
    rw [hconv]

/-- Witness for C1: the default-unit formula at the flour example and the
cross-unit scaling at a liter target over a milliliter recipe unit. -/
theorem c1_ingredient_unit_cost_witness :
    get_ingredient_unit_cost exFlour none =
      .ok (exFlour.purchase_price / exFlour.purchase_qty / exFlour.conversion_factor /
        (exFlour.yield_percent / 100)) ∧
    get_ingredient_unit_cost { exFlour with recipe_unit := "ml" } (some "l") =
      .ok (10 / 5 / 16 / (100 / 100) * 1000) := by
  constructor
  · exact c1_ingredient_unit_cost.1 exFlour (by norm_num [exFlour]) (by norm_num [exFlour])
      (by norm_num [exFlour]) (by norm_num [exFlour])
  · exact c1_ingredient_unit_cost.2.1 { exFlour with recipe_unit := "ml" } "l" 1000
      (by norm_num [exFlour]) (by norm_num [exFlour]) (by norm_num [exFlour])
      (by norm_num [exFlour]) (by decide) (by with_unfolding_all decide)

/-! ## Food cost percentage (C7) -/

/-- An effective selling price is never the zero value. -/
theorem effective_selling_price_ne_zero (recipe : Recipe) (sp : Option ℚ) (p : ℚ)
    (h : effective_selling_price recipe sp = some p) : p ≠ 0 := by
  unfold effective_selling_price at h
  rcases sp with _ | s
  · rcases hst : recipe.selling_price with _ | stored
    · simp [hst] at h
    · simp only [hst] at h
      by_cases hz : stored = 0
      · simp [hz] at h
      · simp only [if_neg hz, Option.some.injEq] at h
        rw [← h]
        exact hz
  · simp only [] at h
    by_cases hz : s = 0
    · rw [if_pos hz] at h
      rcases hst : recipe.selling_price with _ | stored
      · simp [hst] at h
      · simp only [hst] at h
        by_cases hz2 : stored = 0
        · simp [hz2] at h
        · simp only [if_neg hz2, Option.some.injEq] at h
          rw [← h]
          exact hz2
    · rw [if_neg hz] at h
      rw [← Option.some.inj h]
      exact hz

/-- Claim C7 counterexample: with a supplied override selling price of
zero and a stored selling price of 4 on a recipe costing 1 per portion,
the function falls back to the stored price and returns 25 rather than
the null the claim requires for a zero effective override. -/
theorem c7_counterexample :
    exRecipePriced.selling_price = some 4 ∧
      calculate_food_cost_percentage exEnv 10 exRecipePriced (some 0) = .ok (some 25) ∧
      (Except.ok (some (25 : ℚ)) : Except CostCalculationError (Option ℚ)) ≠ .ok none := by
  refine ⟨rfl, by with_unfolding_all decide, by decide⟩

/-- Claim C7 as amended: the function returns null, not an error, exactly
when no nonzero selling price is in effect, where the price in effect is
the override if it is supplied and nonzero, else the stored selling price
if present and nonzero; a zero or absent override falls back to the
stored price.  When a price is in effect and the cost per portion
computes, the result is (cost_per_portion / price) * 100. -/
theorem c7_food_cost_null (env : RecipeEnv) (fuel : ℕ) (recipe : Recipe) (sp : Option ℚ) :
    (calculate_food_cost_percentage env fuel recipe sp = .ok none ↔
      effective_selling_price recipe sp = none) ∧
    (∀ p c, effective_selling_price recipe sp = some p →
      calculate_cost_per_portion env fuel recipe 1 = .ok c →
      calculate_food_cost_percentage env fuel recipe sp = .ok (some (c / p * 100))) := by
  constructor
  · unfold calculate_food_cost_percentage
    rcases heff : effective_selling_price recipe sp with _ | p
    · simp
    · have hp := effective_selling_price_ne_zero recipe sp p heff
      simp only [if_neg hp]
      rcases hcpp : calculate_cost_per_portion env fuel recipe 1 with e | c
      · simp
      · simp
  · intro p c heff hcpp
    unfold calculate_food_cost_percentage
    rw [heff]
    simp only [if_neg (effective_selling_price_ne_zero recipe sp p heff)]
    rw [hcpp]

/-- Witness for C7 as amended: the priced example recipe returns 25. -/
theorem c7_food_cost_null_witness :
    calculate_food_cost_percentage exEnv 10 exRecipePriced none = .ok (some (1 / 4 * 100)) :=
  (c7_food_cost_null exEnv 10 exRecipePriced none).2 4 1 (by decide)
    (by with_unfolding_all decide)

/-! ## Aggregation record lemmas and C5 -/

/-- Looking up the key just written finds the written record. -/
theorem lookup_aggSet_same (agg : Agg) (key : ℕ) (d : AggData) :
    List.lookup key (aggSet agg key d) = some d := by
  induction agg with
  | nil => simp [aggSet, List.lookup]
  | cons hd tl ih =>
    obtain ⟨k, v⟩ := hd
    unfold aggSet
    by_cases h : k = key
    · subst h
      simp [List.lookup]
    · simp only [if_neg h]
      rw [List.lookup_cons]
      have hbeq : (key == k) = false := by
        simp only [beq_eq_false_iff_ne, ne_eq]
        exact fun hh => h hh.symm
      rw [hbeq]
      exact ih

/-- Looking up a different key is unchanged by a write. -/
theorem lookup_aggSet_ne (agg : Agg) (key other : ℕ) (d : AggData) (h : other ≠ key) :
    List.lookup other (aggSet agg key d) = List.lookup other agg := by
  induction agg with
  | nil =>
    unfold aggSet
    rw [List.lookup_cons, List.lookup_nil]
    rw [beq_eq_false_iff_ne.mpr h]
  | cons hd tl ih =>
    obtain ⟨k, v⟩ := hd
    unfold aggSet
    by_cases hk : k = key
    · subst hk
      rw [if_pos rfl, List.lookup_cons, List.lookup_cons]
      rw [beq_eq_false_iff_ne.mpr h]
    · rw [if_neg hk, List.lookup_cons, List.lookup_cons]
      by_cases ho : other = k
      · subst ho
        rw [beq_self_eq_true]
      · rw [beq_eq_false_iff_ne.mpr ho]
        exact ih

/-- Reading back the written key through aggGet. -/
theorem aggGet_aggSet_same (agg : Agg) (key : ℕ) (d : AggData) :
    aggGet (aggSet agg key d) key = d := by
  unfold aggGet
  rw [lookup_aggSet_same]
  rfl

/-- Reading another key through aggGet is unchanged by a write. -/
theorem aggGet_aggSet_ne (agg : Agg) (key other : ℕ) (d : AggData) (h : other ≠ key) :
    aggGet (aggSet agg key d) other = aggGet agg other := by
  unfold aggGet
  rw [lookup_aggSet_ne agg key other d h]

/-- Claim C5 counterexample: the two-unit recipe lists the cup item
first, yet the merged line reports tbsp, the unit of the second and last
encounter, so the first-encounter rule the claim states is violated. -/
theorem c5_counterexample :
    exRecipeTwoUnits.items.head?.map RecipeItem.unit = some "cup" ∧
      (aggGet (aggregate_ingredients exEnv 10 [{ recipe_id := 6, portions := 1 }]) 20).unit
        = some "tbsp" ∧
      ("tbsp" : String) ≠ "cup" := by
  refine ⟨by decide, by with_unfolding_all decide, by decide⟩

/-- Claim C5 as amended: the merged line reports the unit of the most
recent encounter of the ingredient: every direct-ingredient encounter
overwrites the stored unit with the unit of that item, whatever was
stored before, so after flattening the unit is that of the last
encounter.  The cached unit cost is not overwritten once set. -/
theorem c5_last_unit_wins :
    (∀ (item : RecipeItem) (ing : Ingredient) (scale : ℚ) (agg : Agg) (src : String),
      (aggGet (process_ingredient_item item ing scale agg src) ing.id).unit
        = some item.unit) ∧
    (aggGet (aggregate_ingredients exEnv 10 [{ recipe_id := 6, portions := 1 }]) 20).unit
      = some "tbsp" := by
  constructor
  · intro item ing scale agg src
    unfold process_ingredient_item
    rw [aggGet_aggSet_same]
    by_cases h : (aggGet agg ing.id).unit_cost = none
    · simp [h]
    · simp [h]
  · exact by with_unfolding_all decide

/-! ## Cycle detection (C2) -/

/-- The example environment satisfies foreign-key integrity. -/
theorem exEnv_consistent : EnvConsistent exEnv := by
  intro i r h
  unfold exEnv at h
  split_ifs at h with h1 h2 h3 h4 h5 h6 h7 h8 h9 h10 <;> cases h <;>
    simp_all [exRecipePriced, exCycleR2, exCycleR3, exCycleR4, exRecipeScaled,
      exRecipeTwoUnits, exRecipeCycA, exRecipeCycB, exRecipeMergeA, exRecipeMergeB]

/-- An erroring item anywhere in the list makes the whole accumulation
error, as the raised exception aborts the loop. -/
theorem sum_item_costs_error_of_mem (env : RecipeEnv) (fuel : ℕ) (scale : ℚ)
    (visited : Finset ℕ) :
    ∀ (items : List RecipeItem) (acc : ℚ),
      (∃ item ∈ items, ∃ e, calculate_recipe_item_cost env fuel item scale visited = .error e) →
      ∃ e, sum_item_costs env fuel items scale visited acc = .error e := by
  intro items
  induction items with
  | nil =>
    rintro acc ⟨item, hmem, _⟩
    cases hmem
  | cons hd tl ih =>
    rintro acc ⟨item, hmem, e, he⟩
    rcases hhd : calculate_recipe_item_cost env fuel hd scale visited with e2 | c
    · exact ⟨e2, by simp only [sum_item_costs, hhd]⟩
    · rcases List.mem_cons.mp hmem with rfl | hmem2
      · rw [hhd] at he
        cases he
    
      · obtain ⟨e3, h3⟩ := ih (acc + c) ⟨item, hmem2, e, he⟩
        exact ⟨e3, by simp only [sum_item_costs, hhd]; exact h3⟩

/-- A recipe from which some recipe already on the stack is reachable
through sub-recipe items never computes a cost: the walk aborts with an
error once the revisit is checked. -/
theorem recipe_cost_error_of_reaches (env : RecipeEnv) (henv : EnvConsistent env)
    {r t : Recipe} (hreach : ReachesSub env r t) :
    ∀ (fuel : ℕ) (scale : ℚ) (visited : Finset ℕ), t.id ∈ visited ∪ {r.id} →
      ∃ e, calculate_recipe_cost env fuel r scale visited = .error e := by
  induction hreach with
  | @base r s hstep =>
    intro fuel scale visited hmem
    cases fuel with
    | zero => exact ⟨.fuelExhausted, by simp [calculate_recipe_cost]⟩
    | succ f =>
      by_cases hv : r.id ∈ visited
      · exact ⟨.cycle r.id, by simp [calculate_recipe_cost, hv]⟩
      · obtain ⟨item, hitem, hing, sid, hsid, henvs⟩ := hstep
        have hsidid : s.id = sid := henv sid s henvs
        have hmem2 : sid ∈ visited ∪ {r.id} := hsidid ▸ hmem
        have herr : ∃ e,
            calculate_recipe_item_cost env f item scale (visited ∪ {r.id}) = .error e := by
          cases f with
          | zero => exact ⟨.fuelExhausted, by simp [calculate_recipe_item_cost]⟩
          | succ g =>
            refine ⟨.cycle sid, ?_⟩
            simp only [calculate_recipe_item_cost, hing, hsid, henvs]
            rw [if_pos hmem2]
        obtain ⟨e2, he2⟩ := sum_item_costs_error_of_mem env f scale (visited ∪ {r.id})
          r.items 0 ⟨item, hitem, herr⟩
        refine ⟨e2, ?_⟩
        simp only [calculate_recipe_cost]
        rw [if_neg hv]
        exact he2
  | @step r s t hstep htail ih =>
    intro fuel scale visited hmem
    cases fuel with
    | zero => exact ⟨.fuelExhausted, by simp [calculate_recipe_cost]⟩
    | succ f =>
      by_cases hv : r.id ∈ visited
      · exact ⟨.cycle r.id, by simp [calculate_recipe_cost, hv]⟩
      · obtain ⟨item, hitem, hing, sid, hsid, henvs⟩ := hstep
        have hsidid : s.id = sid := henv sid s henvs
        have herr : ∃ e,
            calculate_recipe_item_cost env f item scale (visited ∪ {r.id}) = .error e := by
          cases f with
          | zero => exact ⟨.fuelExhausted, by simp [calculate_recipe_item_cost]⟩
          | succ g =>
            by_cases hsv : sid ∈ visited ∪ {r.id}
            · refine ⟨.cycle sid, ?_⟩
              simp only [calculate_recipe_item_cost, hing, hsid, henvs]
              rw [if_pos hsv]
            · by_cases hyz : s.yield_qty = 0
              · refine ⟨.zeroSubYield s.name, ?_⟩
                simp only [calculate_recipe_item_cost, hing, hsid, henvs]
                rw [if_neg hsv, if_pos hyz]
              · have hmem3 : t.id ∈ ((visited ∪ {r.id}) ∪ {item.recipe_id}) ∪ {s.id} := by
                  simp only [Finset.mem_union] at hmem ⊢
                  tauto
                obtain ⟨e, he⟩ := ih g 1 ((visited ∪ {r.id}) ∪ {item.recipe_id}) hmem3
                refine ⟨e, ?_⟩
                simp only [calculate_recipe_item_cost, hing, hsid, henvs]
                rw [if_neg hsv, if_neg hyz, he]
        obtain ⟨e2, he2⟩ := sum_item_costs_error_of_mem env f scale (visited ∪ {r.id})
          r.items 0 ⟨item, hitem, herr⟩
        refine ⟨e2, ?_⟩
        simp only [calculate_recipe_cost]
        rw [if_neg hv]
        exact he2

/-- Claim C2: a recipe graph in which a recipe reachable through
sub-recipe items refers back to a recipe on the current stack makes the
cost computation fail; the check compares the sub-recipe id against the
visited set before recursing and yields the cycle error; the recursive
call receives the visited set extended with the id of the current recipe
(the owning recipe of the item); the recipe walk itself errors with the
cycle error on its own id when that id is already visited; and the
concrete three-recipe cycle 2 to 3 to 4 back to 2 aborts with the cycle
error naming recipe 2. -/
theorem c2_cycle_error :
    (∀ (env : RecipeEnv) (fuel : ℕ) (item : RecipeItem) (scale : ℚ) (visited : Finset ℕ)
        (sid : ℕ) (sub : Recipe),
      item.ingredient = none → item.sub_recipe_id = some sid → env sid = some sub →
      sid ∈ visited →
      calculate_recipe_item_cost env (fuel + 1) item scale visited = .error (.cycle sid)) ∧
    (∀ (env : RecipeEnv) (fuel : ℕ) (recipe : Recipe) (scale : ℚ) (visited : Finset ℕ),
      recipe.id ∈ visited →
      calculate_recipe_cost env (fuel + 1) recipe scale visited = .error (.cycle recipe.id)) ∧
    (∀ (env : RecipeEnv) (fuel : ℕ) (item : RecipeItem) (scale : ℚ) (visited : Finset ℕ)
        (sid : ℕ) (sub : Recipe),
      item.ingredient = none → item.sub_recipe_id = some sid → env sid = some sub →
      sid ∉ visited → sub.yield_qty ≠ 0 →
      calculate_recipe_item_cost env (fuel + 1) item scale visited =
        (calculate_recipe_cost env fuel sub 1 (visited ∪ {item.recipe_id})).map
          (fun batch_cost => batch_cost * (item.quantity * scale / sub.yield_qty))) ∧
    (∀ (env : RecipeEnv) (r : Recipe), EnvConsistent env → ReachesSub env r r →
      ∀ (fuel : ℕ) (scale : ℚ) (visited : Finset ℕ),
        ∃ e, calculate_recipe_cost env fuel r scale visited = .error e) ∧
    calculate_recipe_cost exEnv 10 exCycleR2 1 ∅ = .error (.cycle 2) := by
  refine ⟨?_, ?_, ?_, ?_, by with_unfolding_all decide⟩
  · intro env fuel item scale visited sid sub hing hsid henvs hv
    simp only [calculate_recipe_item_cost, hing, hsid, henvs]
    rw [if_pos hv]
  · intro env fuel recipe scale visited hv
    simp [calculate_recipe_cost, hv]
  · intro env fuel item scale visited sid sub hing hsid henvs hv hyz
    simp only [calculate_recipe_item_cost, hing, hsid, henvs]
    rw [if_neg hv, if_neg hyz]
    rcases calculate_recipe_cost env fuel sub 1 (visited ∪ {item.recipe_id}) with e | c
    · simp [Except.map]
    · simp [Except.map]
  · intro env r henv hreach fuel scale visited
    exact recipe_cost_error_of_reaches env henv hreach fuel scale visited (by simp)

/-- Witness for C2: the general abort conjunct applied to the concrete
cyclic environment, at fuel 7, scale 5, and a nonempty visited set. -/
theorem c2_cycle_error_witness :
    ∃ e, calculate_recipe_cost exEnv 7 exCycleR2 5 {42} = .error e :=
  c2_cycle_error.2.2.2.1 exEnv exCycleR2 exEnv_consistent
    (ReachesSub.step (s := exCycleR3)
      ⟨exSubItem 2 3, List.mem_singleton.mpr rfl, rfl, 3, rfl, rfl⟩
      (ReachesSub.step (s := exCycleR4)
        ⟨exSubItem 3 4, List.mem_singleton.mpr rfl, rfl, 4, rfl, rfl⟩
        (ReachesSub.base
          ⟨exSubItem 4 2, List.mem_singleton.mpr rfl, rfl, 2, rfl, rfl⟩)))
    7 5 {42}

/-! ## Linearity in the scale (C4) -/

/-- An item cost at scale k times s is k times the cost at scale s: the
ingredient branch is linear in the scale, and the sub-recipe branch
always prices one full batch (scale one) and multiplies by the needed
batches, which are linear in the scale. -/
theorem item_cost_scale_mul (env : RecipeEnv) (k : ℚ) :
    ∀ (fuel : ℕ) (item : RecipeItem) (s : ℚ) (visited : Finset ℕ) (c : ℚ),
      calculate_recipe_item_cost env fuel item s visited = .ok c →
      calculate_recipe_item_cost env fuel item (k * s) visited = .ok (k * c) := by
  intro fuel item s visited c h
  cases fuel with
  | zero => simp [calculate_recipe_item_cost] at h
  | succ f =>
    rcases hing : item.ingredient with _ | ing
    · rcases hsid : item.sub_recipe_id with _ | sid
      · simp [calculate_recipe_item_cost, hing, hsid] at h
      · rcases henvs : env sid with _ | sub
        · simp [calculate_recipe_item_cost, hing, hsid, henvs] at h
        · by_cases hv : sid ∈ visited
          · simp [calculate_recipe_item_cost, hing, hsid, henvs, hv] at h
          · by_cases hyz : sub.yield_qty = 0
            · simp [calculate_recipe_item_cost, hing, hsid, henvs, hv, hyz] at h
            · simp only [calculate_recipe_item_cost, hing, hsid, henvs] at h ⊢
              rw [if_neg hv, if_neg hyz] at h ⊢
              rcases hbc : calculate_recipe_cost env f sub 1 (visited ∪ {item.recipe_id})
                with e | bc
              · first
                  | (rw [hbc] at h; simp at h)
                  | simp at h
              · first
                  | rw [hbc] at h
                  | skip
                simp only [Except.ok.injEq] at h ⊢
                rw [← h]
                ring
    · simp only [calculate_recipe_item_cost, hing] at h ⊢
      rcases huc : get_ingredient_unit_cost ing (some item.unit) with e | u
      · first
          | (rw [huc] at h; simp at h)
          | simp at h
      · first
          | rw [huc] at h
          | skip
        simp only [Except.ok.injEq] at h ⊢
        rw [← h]
        ring

/-- The accumulation loop scales: costs at scale k times s from an
accumulator k times acc are k times the costs at scale s from acc. -/
theorem sum_item_costs_scale_mul (env : RecipeEnv) (k : ℚ) (fuel : ℕ)
    (visited : Finset ℕ) :
    ∀ (items : List RecipeItem) (s acc c : ℚ),
      sum_item_costs env fuel items s visited acc = .ok c →
      sum_item_costs env fuel items (k * s) visited (k * acc) = .ok (k * c) := by
  intro items
  induction items with
  | nil =>
    intro s acc c h
    simp only [sum_item_costs, Except.ok.injEq] at h ⊢
    rw [h]
  | cons hd tl ih =>
    intro s acc c h
    simp only [sum_item_costs] at h ⊢
    rcases hhd : calculate_recipe_item_cost env fuel hd s visited with e | c1
    · rw [hhd] at h
      cases h
    · rw [hhd] at h
      rw [item_cost_scale_mul env k fuel hd s visited c1 hhd]
      have := ih s (acc + c1) c h
      rw [mul_add] at this
      exact this

/-- Claim C4: for every recipe whose cost computes at scale one (which
covers every acyclic recipe with cost-computable ingredients, at any
fuel large enough for its depth) and every positive k, the cost at scale
k is exactly k times the cost at scale one, through arbitrarily nested
sub-recipe items. -/
theorem c4_recipe_cost_linear (env : RecipeEnv) (fuel : ℕ) (recipe : Recipe)
    (visited : Finset ℕ) (k c : ℚ) (hk : 0 < k)
    (h : calculate_recipe_cost env fuel recipe 1 visited = .ok c) :
    calculate_recipe_cost env fuel recipe k visited = .ok (k * c) := by
  cases fuel with
  | zero => simp [calculate_recipe_cost] at h
  | succ f =>
    by_cases hv : recipe.id ∈ visited
    · simp [calculate_recipe_cost, hv] at h
    · simp only [calculate_recipe_cost] at h ⊢
      rw [if_neg hv] at h ⊢
      have := sum_item_costs_scale_mul env k f (visited ∪ {recipe.id}) recipe.items 1 0 c h
      rw [mul_one, mul_zero] at this
      exact this

/-- Witness for C4: the one-item example recipe costs 1 at scale one and
2 at scale two. -/
theorem c4_recipe_cost_linear_witness :
    calculate_recipe_cost exEnv 10 exRecipePriced 2 ∅ = .ok (2 * 1) :=
  c4_recipe_cost_linear exEnv 10 exRecipePriced ∅ 2 1 (by norm_num)
    (by with_unfolding_all decide)

/-! ## BOM aggregation totals (C3) -/

/-- Processing one direct-ingredient encounter adds the scaled quantity
to the total of that ingredient and leaves every other total unchanged. -/
theorem process_ingredient_item_total (item : RecipeItem) (ing : Ingredient)
    (scale : ℚ) (agg : Agg) (src : String) (i : ℕ) :
    (aggGet (process_ingredient_item item ing scale agg src) i).total_qty =
      (aggGet agg i).total_qty + (if ing.id = i then item.quantity * scale else 0) := by
  unfold process_ingredient_item
  by_cases hi : i = ing.id
  · subst hi
    rw [aggGet_aggSet_same, if_pos rfl]
    by_cases h : (aggGet agg ing.id).unit_cost = none
    · simp [h]
    · simp [h]
  · rw [aggGet_aggSet_ne _ _ _ _ hi, if_neg (fun hh => hi hh.symm)]
    simp

/-- The flattening walk realizes the specification sums: under the
no-revisit condition, flattening adds exactly the specification quantity
of every ingredient to the accumulator, and likewise for the item loop. -/
theorem flatten_spec_total (env : RecipeEnv) :
    ∀ fuel : ℕ,
      (∀ (recipe : Recipe) (scale : ℚ) (agg : Agg) (src : String) (visited : Finset ℕ),
        no_revisit env fuel recipe visited = true → ∀ i,
        (aggGet (flatten_recipe_items env fuel recipe scale agg src visited) i).total_qty
          = (aggGet agg i).total_qty + spec_expanded_qty env fuel recipe scale i) ∧
      (∀ (items : List RecipeItem) (scale : ℚ) (agg : Agg) (src : String)
          (visited : Finset ℕ),
        no_revisit_items env fuel items visited = true → ∀ i,
        (aggGet (flatten_items env fuel items scale agg src visited) i).total_qty
          = (aggGet agg i).total_qty
            + (items.map (fun item => spec_item_qty env fuel item scale i)).sum) := by
  intro fuel
  induction fuel using Nat.strong_induction_on with
  | _ fuel ih =>
    have hrec : ∀ (recipe : Recipe) (scale : ℚ) (agg : Agg) (src : String)
        (visited : Finset ℕ),
        no_revisit env fuel recipe visited = true → ∀ i,
        (aggGet (flatten_recipe_items env fuel recipe scale agg src visited) i).total_qty
          = (aggGet agg i).total_qty + spec_expanded_qty env fuel recipe scale i := by
      intro recipe scale agg src visited hnr i
      cases fuel with
      | zero => simp [flatten_recipe_items, spec_expanded_qty]
      | succ f =>
        simp only [no_revisit, Bool.and_eq_true, decide_eq_true_eq] at hnr
        obtain ⟨hnv, hitems⟩ := hnr
        simp only [flatten_recipe_items]
        rw [if_neg hnv]
        rw [(ih f (Nat.lt_succ_self f)).2 recipe.items scale agg src
          (visited ∪ {recipe.id}) hitems i]
        simp only [spec_expanded_qty]
    have hitems : ∀ (items : List RecipeItem) (scale : ℚ) (agg : Agg) (src : String)
        (visited : Finset ℕ),
        no_revisit_items env fuel items visited = true → ∀ i,
        (aggGet (flatten_items env fuel items scale agg src visited) i).total_qty
          = (aggGet agg i).total_qty
            + (items.map (fun item => spec_item_qty env fuel item scale i)).sum := by
      intro items
      induction items with
      | nil =>
        intro scale agg src visited _ i
        simp [flatten_items]
      | cons hd tl ihl =>
        intro scale agg src visited hnr i
        simp only [no_revisit_items, Bool.and_eq_true] at hnr
        obtain ⟨hhd, htl⟩ := hnr
        simp only [flatten_items]
        rcases hing : hd.ingredient with _ | ing
        · rcases hsid : hd.sub_recipe_id with _ | sid
          · simp only [hing, hsid]
            rw [ihl scale agg src visited htl i]
            simp only [List.map_cons, List.sum_cons, spec_item_qty, hing, hsid]
            ring
          · rcases henvs : env sid with _ | sub
            · simp only [hing, hsid, henvs]
              rw [ihl scale agg src visited htl i]
              simp only [List.map_cons, List.sum_cons, spec_item_qty, hing, hsid, henvs]
              ring
            · simp only [hing, hsid, henvs]
              simp only [hing, hsid, henvs] at hhd
              rw [ihl scale
                (flatten_recipe_items env fuel sub ((hd.quantity / sub.yield_qty) * scale)
                  agg src visited) src visited htl i]
              rw [hrec sub ((hd.quantity / sub.yield_qty) * scale) agg src visited hhd i]
              simp only [List.map_cons, List.sum_cons, spec_item_qty, hing, hsid, henvs]
              ring
        · simp only [hing]
          rw [ihl scale (process_ingredient_item hd ing scale agg src) src visited htl i]
          rw [process_ingredient_item_total hd ing scale agg src i]
          simp only [List.map_cons, List.sum_cons, spec_item_qty, hing]
          ring
    exact ⟨hrec, hitems⟩

/-- Folding the per-request flattening over a request list adds the
specification totals of every request. -/
theorem aggregate_fold_total (env : RecipeEnv) (fuel : ℕ) :
    ∀ (requests : List BOMRecipeRequest) (agg : Agg),
      (∀ req ∈ requests, ∀ recipe, env req.recipe_id = some recipe →
        no_revisit env fuel recipe ∅ = true) →
      ∀ i,
      (aggGet (requests.foldl
        (fun aggregated req =>
          match env req.recipe_id with
          | some recipe =>
            flatten_recipe_items env fuel recipe (req.portions / recipe.yield_qty)
              aggregated recipe.name ∅
          | none => aggregated)
        agg) i).total_qty
        = (aggGet agg i).total_qty + spec_bom_total env fuel requests i := by
  intro requests
  induction requests with
  | nil =>
    intro agg _ i
    simp [spec_bom_total]
  | cons req rest ih =>
    intro agg hnr i
    simp only [List.foldl_cons]
    rcases henvr : env req.recipe_id with _ | recipe
    · rw [ih agg (fun r hr => hnr r (List.mem_cons_of_mem req hr)) i]
      simp only [spec_bom_total, List.map_cons, List.sum_cons, henvr]
      ring
    · rw [ih (flatten_recipe_items env fuel recipe (req.portions / recipe.yield_qty)
        agg recipe.name ∅) (fun r hr => hnr r (List.mem_cons_of_mem req hr)) i]
      rw [(flatten_spec_total env fuel).1 recipe (req.portions / recipe.yield_qty)
        agg recipe.name ∅ (hnr req (List.mem_cons_self req rest) recipe henvr) i]
      simp only [spec_bom_total, List.map_cons, List.sum_cons, henvr]
      ring

/-- Claim C3: for every BOM generation request over acyclic recipes
(no revisit along any expansion branch), the aggregated total quantity of
every ingredient equals the sum over all expansions, across all requested
recipes, of item quantity times effective scale, with the top-level scale
requested portions over recipe yield and a sub-recipe scale of item
quantity over sub-recipe yield times the parent scale; in particular the
4-portion recipe using 2 cups requested at 8 portions contributes 4 cups,
and two recipes sharing flour at portions equal to their yields merge
into one line totalling 3 cups. -/
theorem c3_bom_aggregation :
    (∀ (env : RecipeEnv) (fuel : ℕ) (requests : List BOMRecipeRequest),
      (∀ req ∈ requests, ∀ recipe, env req.recipe_id = some recipe →
        no_revisit env fuel recipe ∅ = true) →
      ∀ i, (aggGet (aggregate_ingredients env fuel requests) i).total_qty
        = spec_bom_total env fuel requests i) ∧
    (aggGet (aggregate_ingredients exEnv 10 [{ recipe_id := 5, portions := 8 }]) 10).total_qty
      = 4 ∧
    (aggGet (aggregate_ingredients exEnv 10
      [{ recipe_id := 9, portions := 4 }, { recipe_id := 11, portions := 4 }]) 10).total_qty
      = 3 := by
  refine ⟨?_, by with_unfolding_all decide, by with_unfolding_all decide⟩
  intro env fuel requests hnr i
  unfold aggregate_ingredients
  rw [aggregate_fold_total env fuel requests [] hnr i]
  simp [aggGet, AggData.initial]

/-- Witness for C3: the general conjunct applied to the scaled example
request list. -/
theorem c3_bom_aggregation_witness :
    (aggGet (aggregate_ingredients exEnv 10 [{ recipe_id := 5, portions := 8 }]) 10).total_qty
      = spec_bom_total exEnv 10 [{ recipe_id := 5, portions := 8 }] 10 :=
  c3_bom_aggregation.1 exEnv 10 [{ recipe_id := 5, portions := 8 }]
    (by
      intro req hreq recipe henvr
      rcases List.mem_singleton.mp hreq
      rw [show exEnv (5 : ℕ) = some exRecipeScaled from rfl] at henvr
      cases henvr
      with_unfolding_all decide)
    10

/-! ## BOM flattening cycle behavior (C6) -/

/-- Every loaded recipe id of the example environment lies in exDom. -/
theorem exEnv_dom : ∀ i r, exEnv i = some r → i ∈ exDom := by
  intro i r h
  unfold exEnv at h
  split_ifs at h with h1 h2 h3 h4 h5 h6 h7 h8 h9 h10 <;> cases h <;> subst_vars <;>
    decide

/-- Dropping one more unit of fuel is invisible above the bound given by
the unvisited part of the environment domain: the visited set mechanism
bounds the real recursion depth. -/
theorem flatten_fuel_step (env : RecipeEnv) (D : Finset ℕ)
    (henv : EnvConsistent env) (hdom : ∀ i r, env i = some r → i ∈ D) :
    ∀ fuel : ℕ,
      (∀ (recipe : Recipe) (scale : ℚ) (agg : Agg) (src : String) (visited : Finset ℕ),
        recipe.id ∈ D → (D \ visited).card + 1 ≤ fuel →
        flatten_recipe_items env fuel recipe scale agg src visited
          = flatten_recipe_items env (fuel + 1) recipe scale agg src visited) ∧
      (∀ (items : List RecipeItem) (scale : ℚ) (agg : Agg) (src : String)
          (visited : Finset ℕ),
        (D \ visited).card + 1 ≤ fuel →
        flatten_items env fuel items scale agg src visited
          = flatten_items env (fuel + 1) items scale agg src visited) := by
  intro fuel
  induction fuel using Nat.strong_induction_on with
  | _ fuel ih =>
    have hrec : ∀ (recipe : Recipe) (scale : ℚ) (agg : Agg) (src : String)
        (visited : Finset ℕ),
        recipe.id ∈ D → (D \ visited).card + 1 ≤ fuel →
        flatten_recipe_items env fuel recipe scale agg src visited
          = flatten_recipe_items env (fuel + 1) recipe scale agg src visited := by
      intro recipe scale agg src visited hrD hfuel
      cases fuel with
      | zero => omega
      | succ f =>
        by_cases hv : recipe.id ∈ visited
        · simp only [flatten_recipe_items]
          rw [if_pos hv, if_pos hv]
        · simp only [flatten_recipe_items]
          rw [if_neg hv, if_neg hv]
          have hmem : recipe.id ∈ D \ visited := Finset.mem_sdiff.mpr ⟨hrD, hv⟩
          have hcard : (D \ (visited ∪ {recipe.id})).card + 1 ≤ f := by
            have hsub : D \ (visited ∪ {recipe.id}) = (D \ visited).erase recipe.id := by
              ext x
              simp only [Finset.mem_sdiff, Finset.mem_union, Finset.mem_singleton,
                Finset.mem_erase]
              tauto
            rw [hsub, Finset.card_erase_of_mem hmem]
            have hpos : 0 < (D \ visited).card := Finset.card_pos.mpr ⟨recipe.id, hmem⟩
            omega
          exact (ih f (Nat.lt_succ_self f)).2 recipe.items scale agg src
            (visited ∪ {recipe.id}) hcard
    have hitems : ∀ (items : List RecipeItem) (scale : ℚ) (agg : Agg) (src : String)
        (visited : Finset ℕ),
        (D \ visited).card + 1 ≤ fuel →
        flatten_items env fuel items scale agg src visited
          = flatten_items env (fuel + 1) items scale agg src visited := by
      intro items
      induction items with
      | nil =>
        intro scale agg src visited _
        simp [flatten_items]
      | cons hd tl ihl =>
        intro scale agg src visited hfuel
        simp only [flatten_items]
        rcases hing : hd.ingredient with _ | ing
        · rcases hsid : hd.sub_recipe_id with _ | sid
          · simp only [hing, hsid]
            exact ihl scale _ src visited hfuel
          · rcases henvs : env sid with _ | sub
            · simp only [hing, hsid, henvs]
              exact ihl scale _ src visited hfuel
            · simp only [hing, hsid, henvs]
              have hsubD : sub.id ∈ D := (henv sid sub henvs) ▸ hdom sid sub henvs
              rw [← hrec sub ((hd.quantity / sub.yield_qty) * scale) agg src visited
                hsubD hfuel]
              exact ihl scale _ src visited hfuel
        · simp only [hing]
          exact ihl scale _ src visited hfuel
    exact ⟨hrec, hitems⟩

/-- Above the bound, the flattening result does not depend on the fuel at
all: the embedded recursion terminates by the visited mechanism. -/
theorem flatten_fuel_stable (env : RecipeEnv) (D : Finset ℕ)
    (henv : EnvConsistent env) (hdom : ∀ i r, env i = some r → i ∈ D)
    (recipe : Recipe) (scale : ℚ) (agg : Agg) (src : String) (visited : Finset ℕ)
    (hrD : recipe.id ∈ D) :
    ∀ fuel₁ fuel₂ : ℕ, (D \ visited).card + 1 ≤ fuel₁ → fuel₁ ≤ fuel₂ →
      flatten_recipe_items env fuel₁ recipe scale agg src visited
        = flatten_recipe_items env fuel₂ recipe scale agg src visited := by
  have hstep : ∀ (fuel k : ℕ), (D \ visited).card + 1 ≤ fuel →
      flatten_recipe_items env fuel recipe scale agg src visited
        = flatten_recipe_items env (fuel + k) recipe scale agg src visited := by
    intro fuel k hf
    induction k with
    | zero => rfl
    | succ j ihk =>
      rw [ihk, ← Nat.add_assoc]
      exact (flatten_fuel_step env D henv hdom (fuel + j)).1 recipe scale agg src visited
        hrD (by omega)
  intro fuel₁ fuel₂ h1 h12
  have := hstep fuel₁ (fuel₂ - fuel₁) h1
  rwa [Nat.add_sub_cancel' h12] at this

/-- Claim C6: the BOM flattening pass never fails on a cyclic recipe
graph: its result type carries no error at all; reaching a recipe id
already in the visited set of the branch returns the accumulator
unchanged, silently ending that branch; the rest of the BOM is still
produced, as on the concrete two-recipe cycle where both ingredients
keep their full totals; and flattening terminates, in that beyond the
explicit bound given by the unvisited environment domain the result is
independent of the fuel. -/
theorem c6_flatten_cycle_silent :
    (∀ (env : RecipeEnv) (fuel : ℕ) (recipe : Recipe) (scale : ℚ) (agg : Agg)
        (src : String) (visited : Finset ℕ), recipe.id ∈ visited →
      flatten_recipe_items env fuel recipe scale agg src visited = agg) ∧
    (∀ (env : RecipeEnv) (D : Finset ℕ), EnvConsistent env →
      (∀ i r, env i = some r → i ∈ D) →
      ∀ (recipe : Recipe) (scale : ℚ) (agg : Agg) (src : String) (visited : Finset ℕ),
        recipe.id ∈ D →
        ∀ fuel₁ fuel₂ : ℕ, (D \ visited).card + 1 ≤ fuel₁ →
          (D \ visited).card + 1 ≤ fuel₂ →
          flatten_recipe_items env fuel₁ recipe scale agg src visited
            = flatten_recipe_items env fuel₂ recipe scale agg src visited) ∧
    (aggGet (aggregate_ingredients exEnv 10 [{ recipe_id := 7, portions := 1 }]) 20).total_qty
      = 3 ∧
    (aggGet (aggregate_ingredients exEnv 10 [{ recipe_id := 7, portions := 1 }]) 10).total_qty
      = 5 := by
  refine ⟨?_, ?_, by with_unfolding_all decide, by with_unfolding_all decide⟩
  · intro env fuel recipe scale agg src visited hv
    cases fuel with
    | zero => simp [flatten_recipe_items]
    | succ f =>
      simp only [flatten_recipe_items]
      rw [if_pos hv]
  · intro env D henv hdom recipe scale agg src visited hrD fuel₁ fuel₂ h1 h2
    rcases Nat.le_total fuel₁ fuel₂ with h12 | h21
    · exact flatten_fuel_stable env D henv hdom recipe scale agg src visited hrD
        fuel₁ fuel₂ h1 h12
    · exact (flatten_fuel_stable env D henv hdom recipe scale agg src visited hrD
        fuel₂ fuel₁ h2 h21).symm

/-- Witness for C6: the fuel independence conjunct applied to the
concrete cyclic pair of recipes above the bound of the example domain. -/
theorem c6_flatten_cycle_silent_witness :
    flatten_recipe_items exEnv 11 exRecipeCycA 1 [] "cycA" ∅
      = flatten_recipe_items exEnv 25 exRecipeCycA 1 [] "cycA" ∅ :=
  c6_flatten_cycle_silent.2.1 exEnv exDom exEnv_consistent exEnv_dom exRecipeCycA 1 []
    "cycA" ∅ (by decide) 11 25 (by decide) (by decide)

end BomSpec
